import Mathlib

/-!
Shallow embedding of the cmdparse command-line parsing library
(src/lib.rs): tokenizer (`prep_args`), option registry
(`LocalContext.add_option`), validation state machine
(`Opt.validate`, the parse loop `parseF` with `Cmd::validate` inlined)
and the result accessors (`Opt.check`, `Opt.count`, `Opt.take_value`,
`Opt.take_values`).

Rust strings are embedded as `List Char`; the reference-counted
interior-mutable result cells (`Rc<RefCell<Res>>`, `CmdRes`) are
embedded as a store `Nat → Res` (resp. `Nat → Bool`) indexed by a cell
identity assigned at registration; mutation becomes explicit state
passing.  Error values are the exact message strings the source
formats.  The parse loop, which consumes at least one token per
iteration, is driven by a fuel argument instantiated with the length
of the token list (`runValidate`).
-/

abbrev Str := List Char

/-- `static min_align: uint = 15` -/
def min_align : Nat := 15

namespace Flags

def Defaults : Nat := 0
def Unique : Nat := 1
def Hidden : Nat := 2
def TakesArg : Nat := 4
def TakesOptionalArg : Nat := 8

end Flags

/-- `enum RawArg { Short(char), Long(~str), Neither(~str) }` -/
inductive RawArg where
  | Short (c : Char)
  | Long (s : Str)
  | Neither (s : Str)
deriving DecidableEq

/-- `RawArg::option`: everything except `Neither` is an option token. -/
def RawArg.option : RawArg → Bool
  | RawArg.Neither _ => false
  | _ => true

/-- `RawArg::value`: the payload of the token (`c.to_str()` for short). -/
def RawArg.value : RawArg → Str
  | RawArg.Short c => [c]
  | RawArg.Long a => a
  | RawArg.Neither a => a

/-- `struct Res { passed: uint, values: ~[~str] }` -/
structure Res where
  passed : Nat
  values : List Str
deriving DecidableEq

/-- `struct Opt`: names, description, flag bits, and the identity of its
`Rc<RefCell<Res>>` result cell (`resId`). -/
structure Opt where
  long_name : Option Str
  short_name : Option Char
  description : Option Str
  flags : Nat
  resId : Nat
deriving DecidableEq

/-- `Opt::has_flag`: `(self.flags & flags) != 0`. -/
def Opt.has_flag (self : Opt) (flags : Nat) : Bool :=
  (self.flags &&& flags) != 0

/- Error messages exactly as formatted by src/lib.rs. -/

def errInvalidOption (name : Str) : Str :=
  "Invalid option : ".toList ++ name ++ ".".toList

def errUnexpectedArgument (v : Str) : Str :=
  "Unexpected argument : ".toList ++ v ++ ".".toList

def errDuplicateOption (name : Str) : Str :=
  "The option : ".toList ++ name ++ " was given more than once".toList

def errMissingArgument (name : Str) : Str :=
  "Missing argument for option : ".toList ++ name

def errUnexpectedCommand (name : Str) : Str :=
  "Unexpected command : ".toList ++ name

def errDupLongName : Str :=
  "An option with the same long name was already added".toList

def errDupShortName : Str :=
  "An option with the same short name was already added".toList

def errNoName : Str :=
  "An option needs either a short or a long name".toList

/-- `Opt::validate` (src/lib.rs lines 141-163).  Takes the option's
result cell contents and returns `(result, remaining rargs,
remaining residual_args, new cell contents)`.  The occurrence counter
is incremented first and kept on every path, including error paths. -/
def Opt.validate (self : Opt) (opt_name : Str) (rargs : List RawArg)
    (residual_args : List Str) (res : Res) :
    Except Str Unit × List RawArg × List Str × Res :=
  let res := { res with passed := res.passed + 1 }
  match residual_args with
  | v :: vrest => (Except.error (errUnexpectedArgument v), rargs, vrest, res)
  | [] =>
    if decide (res.passed > 1) && self.has_flag Flags.Unique then
      (Except.error (errDuplicateOption opt_name), rargs, [], res)
    else if self.has_flag (Flags.TakesArg ||| Flags.TakesOptionalArg) then
      match rargs with
      | narg :: nrest =>
        if !narg.option then
          (Except.ok (), nrest, [], { res with values := res.values ++ [narg.value] })
        else if self.has_flag Flags.TakesArg then
          (Except.error (errMissingArgument opt_name), narg :: nrest, [], res)
        else
          (Except.ok (), narg :: nrest, [], res)
      | [] =>
        if self.has_flag Flags.TakesArg then
          (Except.error (errMissingArgument opt_name), [], [], res)
        else
          (Except.ok (), [], [], res)
    else
      (Except.ok (), rargs, [], res)

/-- `Opt::count`: reads the occurrence counter of the result cell. -/
def Opt.count (res : Res) : Nat := res.passed

/-- `Opt::check`: `self.count() != 0`. -/
def Opt.check (res : Res) : Bool := Opt.count res != 0

/-- `Opt::take_value::<T>` (src/lib.rs lines 174-186): removes the
front captured value (`shift_opt`); `Sum.inl` embeds `Left`,
`Sum.inr` embeds `Right`.  `from_str` embeds the `FromStr` parse. -/
def Opt.take_value {T : Type} (from_str : Str → Option T) (res : Res) :
    (Option T ⊕ Bool) × Res :=
  let passed := res.passed
  match res.values with
  | value :: rest => (Sum.inl (from_str value), { res with values := rest })
  | [] => if passed = 0 then (Sum.inr false, res) else (Sum.inr true, res)

/-- `Opt::take_values::<T>` (src/lib.rs lines 196-203): maps the parse
over the captured values without consuming them. -/
def Opt.take_values {T : Type} (from_str : Str → Option T) (res : Res) :
    (List (Option T) ⊕ Nat) × Res :=
  if res.values.length = 0 then (Sum.inr res.passed, res)
  else (Sum.inl (res.values.map from_str), res)

/-- `struct LocalContext` (help-printing metadata included). -/
structure LocalContext where
  alignment : Nat
  description : Str
  loptions : Str → Option Opt
  soptions : Char → Option Opt
  print_options : List Opt

/-- `LocalContext::new`. -/
def LocalContext.new (description : Str) : LocalContext :=
  { alignment := min_align, description := description,
    loptions := fun _ => none, soptions := fun _ => none,
    print_options := [] }

/-- `struct Cmd`: the identity of its `CmdRes` selection-flag cell and
its private `LocalContext`. -/
structure Cmd where
  resId : Nat
  inner_ctx : LocalContext

/-- Pointwise update of a result store (the effect of mutating one
`Rc<RefCell<Res>>` cell). -/
def updStore (store : Nat → Res) (i : Nat) (r : Res) : Nat → Res :=
  fun j => if j = i then r else store j

/-- Pointwise update of the command selection-flag store
(`CmdRes::set`). -/
def updFlag (f : Nat → Bool) (i : Nat) (b : Bool) : Nat → Bool :=
  fun j => if j = i then b else f j

/-- `LocalContext::add_option` (src/lib.rs lines 297-328).  `fresh` is
the identity of the newly allocated result cell.  Note the source
inserts into `loptions` (replacing any existing entry) *before*
checking the duplicate-long-name error, and inserts into `soptions`
before checking the duplicate-short-name error. -/
def LocalContext.add_option (self : LocalContext) (long_name : Option Str)
    (short_name : Option Char) (description : Option Str) (flags : Nat)
    (fresh : Nat) : Except Str Opt × LocalContext :=
  let opt : Opt := { long_name := long_name, short_name := short_name,
                     description := description, flags := flags, resId := fresh }
  let finish : LocalContext → Except Str Opt × LocalContext := fun self2 =>
    match short_name with
    | some sname =>
      let existedS := (self2.soptions sname).isSome
      let self3 := { self2 with
        soptions := fun k => if k = sname then some opt else self2.soptions k }
      if existedS then (Except.error errDupShortName, self3)
      else if !opt.has_flag Flags.Hidden then
        (Except.ok opt, { self3 with print_options := self3.print_options ++ [opt] })
      else (Except.ok opt, self3)
    | none =>
      if !opt.has_flag Flags.Hidden then
        (Except.ok opt, { self2 with print_options := self2.print_options ++ [opt] })
      else (Except.ok opt, self2)
  match long_name with
  | some name =>
    let existed := (self.loptions name).isSome
    let self1 := { self with
      alignment := max self.alignment (name.length + min_align),
      loptions := fun k => if k = name then some opt else self.loptions k }
    if existed then (Except.error errDupLongName, self1)
    else finish self1
  | none =>
    if short_name.isNone then (Except.error errNoName, self)
    else finish self

/-- The empty command map (`&mut HashMap::new()` passed by
`Cmd::validate` to the inner parse). -/
def emptyCmds : Str → Option Cmd := fun _ => none

/-- `LocalContext::parse` (src/lib.rs lines 268-295), with
`Cmd::validate` (lines 232-243) inlined at the `Neither`-matches-a-
command case.  One fuel unit per loop iteration; each iteration
consumes at least one token, so fuel `rargs.length` is always enough.
Returns `(result, result store, command flags, residual_args)`.
After a successful inner command parse the remaining token list is
`[]` because the inner loop runs until its shared token list is
drained. -/
def parseF : Nat → LocalContext → (Str → Option Cmd) → List RawArg →
    (Nat → Res) → (Nat → Bool) → List Str →
    Except Str Unit × (Nat → Res) × (Nat → Bool) × List Str
  | 0, _, _, _, store, cflags, residual_args =>
    (Except.ok (), store, cflags, residual_args)
  | fuel + 1, ctx, cmds, rargs, store, cflags, residual_args =>
    match rargs with
    | [] => (Except.ok (), store, cflags, residual_args)
    | raw_arg :: rest =>
      let step : Except Str Unit × List RawArg × (Nat → Res) × (Nat → Bool) × List Str :=
        match raw_arg with
        | RawArg.Short sname =>
          match ctx.soptions sname with
          | none => (Except.error (errInvalidOption [sname]), rest, store, cflags, residual_args)
          | some opt =>
            match opt.validate [sname] rest residual_args (store opt.resId) with
            | (r, rargs2, residual2, res2) =>
              (r, rargs2, updStore store opt.resId res2, cflags, residual2)
        | RawArg.Long lname =>
          match ctx.loptions lname with
          | none => (Except.error (errInvalidOption lname), rest, store, cflags, residual_args)
          | some opt =>
            match opt.validate lname rest residual_args (store opt.resId) with
            | (r, rargs2, residual2, res2) =>
              (r, rargs2, updStore store opt.resId res2, cflags, residual2)
        | RawArg.Neither nname =>
          match cmds nname with
          | none => (Except.ok (), rest, store, cflags, residual_args ++ [nname])
          | some cmd =>
            match residual_args with
            | v :: vrest => (Except.error (errUnexpectedArgument v), rest, store, cflags, vrest)
            | [] =>
              if cflags cmd.resId then
                (Except.error (errUnexpectedCommand nname), rest, store, cflags, [])
              else
                match parseF fuel cmd.inner_ctx emptyCmds rest store
                    (updFlag cflags cmd.resId true) [] with
                | (r, store2, cflags2, residual2) => (r, [], store2, cflags2, residual2)
      match step with
      | (Except.error msg, _, store2, cflags2, residual2) =>
        match residual2 with
        | v :: vrest => (Except.error (errUnexpectedArgument v), store2, cflags2, vrest)
        | [] => (Except.error msg, store2, cflags2, [])
      | (Except.ok _, rargs2, store2, cflags2, residual2) =>
        parseF fuel ctx cmds rargs2 store2 cflags2 residual2

/-- `splitn('=', 1)` on a character list: split at the first `'='`
into the left part and, when a `'='` is present, the right part. -/
def splitnEq : Str → Str × Option Str
  | [] => ([], none)
  | c :: cs =>
    if c = '=' then ([], some cs)
    else
      let r := splitnEq cs
      (c :: r.1, r.2)

/-- The tokens produced from a single raw argument string inside the
loop of `Context::prep_args` (src/lib.rs lines 372-395). -/
def prepArg : Str → List RawArg
  | '-' :: '-' :: rest =>
    match splitnEq rest with
    | (name, none) => [RawArg.Long name]
    | (name, some value) => [RawArg.Long name, RawArg.Neither value]
  | '-' :: rest => rest.map RawArg.Short
  | arg => [RawArg.Neither arg]

/-- `Context::prep_args`: skip the program name, then tokenize each
argument in order. -/
def prep_args (args : List Str) : List RawArg :=
  (args.drop 1).flatMap prepArg

/-- Fresh result cell: `Res { passed: 0, values: ~[] }`. -/
def initStore : Nat → Res := fun _ => { passed := 0, values := [] }

/-- Fresh command flags: `RefCell::new(false)`. -/
def initFlags : Nat → Bool := fun _ => false

/-- `Context::validate`: tokenize the argument vector and run the
top-level parse with an initially empty residual list. -/
def runValidate (ctx : LocalContext) (cmds : Str → Option Cmd)
    (args : List Str) (store : Nat → Res) (cflags : Nat → Bool) :
    Except Str Unit × (Nat → Res) × (Nat → Bool) × List Str :=
  let raw := prep_args args
  parseF raw.length ctx cmds raw store cflags []

/-- Whether a token is looked up successfully in the scope by the
parse loop: a short/long flag matching a registered option, or a bare
value matching a registered command. -/
def matchedTok (ctx : LocalContext) (cmds : Str → Option Cmd) : RawArg → Bool
  | RawArg.Short c => (ctx.soptions c).isSome
  | RawArg.Long l => (ctx.loptions l).isSome
  | RawArg.Neither n => (cmds n).isSome

/-- The option an option token resolves to in the scope, paired with
the name string the parse loop passes to `Opt.validate` for it. -/
def optTokMatch (ctx : LocalContext) : RawArg → Option (Opt × Str)
  | RawArg.Short c =>
    match ctx.soptions c with
    | some o => some (o, [c])
    | none => none
  | RawArg.Long l =>
    match ctx.loptions l with
    | some o => some (o, l)
    | none => none
  | RawArg.Neither _ => none

/-- A token that the parse loop processes without error, without
consuming further tokens, and without touching the result cell `uid`:
a flag matching a registered option that takes no value, is not
unique, and owns a different result cell. -/
def CleanTok (ctx : LocalContext) (uid : Nat) (t : RawArg) : Prop :=
  ∃ o name, optTokMatch ctx t = some (o, name) ∧
    o.has_flag (Flags.TakesArg ||| Flags.TakesOptionalArg) = false ∧
    o.has_flag Flags.Unique = false ∧ o.resId ≠ uid

/-- The argument strings of a sequence of invocations of the long
option `name`, each either inline (`--name=v`) or split
(`--name` `v`). -/
def invocationArgs (name : Str) : List (Bool × Str) → List Str
  | [] => []
  | (b, v) :: ps =>
    (if b then ['-' :: '-' :: (name ++ '=' :: v)]
     else ['-' :: '-' :: name, v]) ++ invocationArgs name ps

/- Concrete scenario scopes, built through the registration code. -/

/-- Scope with no-value short options `a`, `b`, `c` (cells 0, 1, 2). -/
def ctxABC : LocalContext :=
  let r0 := (LocalContext.new []).add_option none (some 'a') none Flags.Defaults 0
  let r1 := r0.2.add_option none (some 'b') none Flags.Defaults 1
  let r2 := r1.2.add_option none (some 'c') none Flags.Defaults 2
  r2.2

/-- Scope with the no-value long option `long1` (cell 0). -/
def ctxLong1 : LocalContext :=
  ((LocalContext.new []).add_option (some "long1".toList) none none Flags.Defaults 0).2

/-- Scope with the mandatory-value long option `opt` (cell 0). -/
def ctxOptArg : LocalContext :=
  ((LocalContext.new []).add_option (some "opt".toList) none none Flags.TakesArg 0).2

/-- Scope with optional-value short `s` (cell 0) and no-value short
`a` (cell 1). -/
def ctxSA : LocalContext :=
  let r0 := (LocalContext.new []).add_option none (some 's') none Flags.TakesOptionalArg 0
  (r0.2.add_option none (some 'a') none Flags.Defaults 1).2

/-- Scope with the unique no-value short option `d` (cell 0). -/
def ctxUniqueD : LocalContext :=
  ((LocalContext.new []).add_option none (some 'd') none Flags.Unique 0).2

/-- Scope with an option whose long name is `one` and short name is
`x` (cell 0). -/
def ctxOneX : LocalContext :=
  ((LocalContext.new []).add_option (some "one".toList) (some 'x') none Flags.Defaults 0).2

/-- Command map with the single command `cmd` (flag cell 0, empty
inner scope). -/
def cmdsCmd : Str → Option Cmd :=
  fun n => if n = "cmd".toList then some ⟨0, LocalContext.new []⟩ else none

/-- A result cell after an option was passed once with captured value
`"33"`. -/
def resOnce33 : Res := { passed := 1, values := ["33".toList] }
-- === Claim C7 ===

/-- C7: for the argument list `["-abc"]` with `a`, `b`, `c` registered
as no-value short options, the tokenizer produces one `Short` token
per character, validation succeeds, each option's count is 1, and the
residual argument list is empty. -/
theorem C7_grouped_short_options :
    prep_args ["test".toList, "-abc".toList] =
      [RawArg.Short 'a', RawArg.Short 'b', RawArg.Short 'c'] ∧
    (runValidate ctxABC emptyCmds ["test".toList, "-abc".toList] initStore initFlags).1 =
      Except.ok () ∧
    Opt.count ((runValidate ctxABC emptyCmds ["test".toList, "-abc".toList] initStore initFlags).2.1 0) = 1 ∧
    Opt.count ((runValidate ctxABC emptyCmds ["test".toList, "-abc".toList] initStore initFlags).2.1 1) = 1 ∧
    Opt.count ((runValidate ctxABC emptyCmds ["test".toList, "-abc".toList] initStore initFlags).2.1 2) = 1 ∧
    (runValidate ctxABC emptyCmds ["test".toList, "-abc".toList] initStore initFlags).2.2.2 = [] :=
  ⟨by decide, by rfl, by decide, by decide, by decide, by decide⟩

-- === Claim C4 ===

/-- C4: after a successful validate, `take_value` on an
optional-value option distinguishes three outcomes: passed without a
value (`Sum.inr true`, scenario `["-s","-a"]`), never passed
(`Sum.inr false`, scenario `["-a"]`), and a captured value
(`Sum.inl _`); the three are mutually distinct. -/
theorem C4_take_value_three_outcomes {T : Type} (p : Str → Option T) :
    (runValidate ctxSA emptyCmds ["t".toList, "-s".toList, "-a".toList] initStore initFlags).1 =
      Except.ok () ∧
    (runValidate ctxSA emptyCmds ["t".toList, "-a".toList] initStore initFlags).1 =
      Except.ok () ∧
    (Opt.take_value p ((runValidate ctxSA emptyCmds ["t".toList, "-s".toList, "-a".toList] initStore initFlags).2.1 0)).1 =
      Sum.inr true ∧
    (Opt.take_value p ((runValidate ctxSA emptyCmds ["t".toList, "-a".toList] initStore initFlags).2.1 0)).1 =
      Sum.inr false ∧
    (Sum.inr true : Option T ⊕ Bool) ≠ Sum.inr false ∧
    (∀ x : Option T, Sum.inl x ≠ (Sum.inr true : Option T ⊕ Bool) ∧
      Sum.inl x ≠ (Sum.inr false : Option T ⊕ Bool)) :=
  ⟨by rfl, by rfl, by rfl, by rfl, by simp, fun x => ⟨by simp, by simp⟩⟩

-- === Claim C1 ===

/-- C1 counterexample: with the command `cmd` registered and the
argument list `["prog","cmd","cmd"]`, validate succeeds (the second
occurrence is silently treated as a leftover argument of the
command's inner scope), contradicting the claim that a second
occurrence of a command name causes validate to fail. -/
theorem C1_counterexample :
    (runValidate (LocalContext.new []) cmdsCmd
      ["prog".toList, "cmd".toList, "cmd".toList] initStore initFlags).1 = Except.ok () ∧
    (runValidate (LocalContext.new []) cmdsCmd
      ["prog".toList, "cmd".toList, "cmd".toList] initStore initFlags).2.2.1 0 = true ∧
    (runValidate (LocalContext.new []) cmdsCmd
      ["prog".toList, "cmd".toList, "cmd".toList] initStore initFlags).2.2.2 = ["cmd".toList] :=
  ⟨by rfl, by decide, by decide⟩

/-- C1 (amended): the selection flag of a command transitions to true
the first time its name appears as a bare value in the declaring
scope, but a second occurrence of the name is consumed by the
command's inner scope (whose command map is empty) and becomes a
leftover argument, so validate succeeds; the `UnexpectedCommand`
error arises only when the command token is looked up while its
selection flag is already set. -/
theorem C1_command_selection :
    (∀ (ctx : LocalContext) (c : Str) (rid : Nat) (store : Nat → Res) (cflags : Nat → Bool),
      cflags rid = false →
      (parseF 2 ctx (fun n => if n = c then some ⟨rid, LocalContext.new []⟩ else none)
        [RawArg.Neither c, RawArg.Neither c] store cflags []).1 = Except.ok () ∧
      (parseF 2 ctx (fun n => if n = c then some ⟨rid, LocalContext.new []⟩ else none)
        [RawArg.Neither c, RawArg.Neither c] store cflags []).2.2.1 rid = true ∧
      (parseF 2 ctx (fun n => if n = c then some ⟨rid, LocalContext.new []⟩ else none)
        [RawArg.Neither c, RawArg.Neither c] store cflags []).2.2.2 = [c]) ∧
    (∀ (fuel : Nat) (ctx : LocalContext) (cmds : Str → Option Cmd) (c : Str) (cmd : Cmd)
      (rest : List RawArg) (store : Nat → Res) (cflags : Nat → Bool),
      cmds c = some cmd → cflags cmd.resId = true →
      parseF (fuel + 1) ctx cmds (RawArg.Neither c :: rest) store cflags [] =
        (Except.error (errUnexpectedCommand c), store, cflags, [])) := by
  constructor
  · intro ctx c rid store cflags hflag
    have h2 : (2 : Nat) = 1 + 1 := rfl
    rw [h2]
    simp [parseF, emptyCmds, updFlag, hflag]
  · intro fuel ctx cmds c cmd rest store cflags hc hflag
    simp [parseF, hc, hflag]

-- === Claim C3 counterexample ===

/-- C3 counterexample: for the mandatory-value option `opt` and the
value `"-x"`, the inline spelling `--opt=-x` validates and captures
`"-x"`, while the separate spelling `--opt` `-x` produces a different
token stream and fails with the missing-argument error, so the two
spellings do not always produce identical captured value lists. -/
theorem C3_counterexample :
    prep_args ["t".toList, "--opt=-x".toList] ≠
      prep_args ["t".toList, "--opt".toList, "-x".toList] ∧
    (runValidate ctxOptArg emptyCmds ["t".toList, "--opt=-x".toList] initStore initFlags).1 =
      Except.ok () ∧
    ((runValidate ctxOptArg emptyCmds ["t".toList, "--opt=-x".toList] initStore initFlags).2.1 0).values =
      ["-x".toList] ∧
    (runValidate ctxOptArg emptyCmds ["t".toList, "--opt".toList, "-x".toList] initStore initFlags).1 =
      Except.error (errMissingArgument "opt".toList) ∧
    ((runValidate ctxOptArg emptyCmds ["t".toList, "--opt".toList, "-x".toList] initStore initFlags).2.1 0).values =
      [] :=
  ⟨by decide, by rfl, by decide, by rfl, by decide⟩

-- === Claim C8 ===

/-- C8 counterexample: registering an option whose only long name has
length 1 succeeds (no length constraint is checked), contradicting
the claim that it fails with the invalid-definition error. -/
theorem C8_counterexample :
    ((LocalContext.new []).add_option (some "x".toList) none none Flags.Defaults 0).1 =
      Except.ok { long_name := some "x".toList, short_name := none, description := none,
                  flags := Flags.Defaults, resId := 0 } ∧
    ∀ msg, ((LocalContext.new []).add_option (some "x".toList) none none Flags.Defaults 0).1 ≠
      Except.error msg := by
  refine ⟨by rfl, ?_⟩
  intro msg h
  rw [show ((LocalContext.new []).add_option (some "x".toList) none none Flags.Defaults 0).1 =
      Except.ok { long_name := some "x".toList, short_name := none, description := none,
                  flags := Flags.Defaults, resId := 0 } from rfl] at h
  exact absurd h (by simp)

/-- C8 (amended): `add_option` returns the no-name
(invalid-definition) error exactly when neither a long nor a short
name is supplied; name lengths are never checked (a short name is a
single character by construction). -/
theorem C8_invalid_definition_iff (ctx : LocalContext) (ln : Option Str)
    (sn : Option Char) (d : Option Str) (fl fresh : Nat) :
    ((ctx.add_option ln sn d fl fresh).1 = Except.error errNoName) ↔
      (ln = none ∧ sn = none) := by
  have hS : errDupShortName ≠ errNoName := by decide
  have hL : errDupLongName ≠ errNoName := by decide
  cases ln <;> cases sn <;>
    simp only [LocalContext.add_option, Option.isNone] <;>
    (repeat' split) <;> simp_all

-- === Claim C9 ===

/-- C9 counterexample: on a result cell holding one captured value,
`take_value` mutates the cell (it removes the front value), and a
second identical call returns a different outcome, contradicting the
claim that the accessors leave the result unchanged. -/
theorem C9_counterexample :
    (Opt.take_value (fun s => some s) resOnce33).2 ≠ resOnce33 ∧
    (Opt.take_value (fun s => some s)
        ((Opt.take_value (fun s => some s) resOnce33).2)).1 ≠
      (Opt.take_value (fun s => some s) resOnce33).1 := by
  constructor
  · intro h
    exact absurd (congrArg Res.values h) (by decide)
  · intro h
    exact absurd h (by decide)

/-- C9 (amended): `check`, `count` and `take_values` are read-only
(`take_values` returns the cell unchanged), while `take_value`
consumes the front captured value: its returned cell drops that
value, and when exactly one value was captured a second call yields
the distinct passed-without-value outcome. -/
theorem C9_accessor_effects {T : Type} (p : Str → Option T) (res : Res) :
    (Opt.take_values p res).2 = res ∧
    (Opt.take_value p res).2 = { res with values := res.values.tail } ∧
    (res.passed ≠ 0 → ∀ v, res.values = [v] →
      (Opt.take_value p res).1 = Sum.inl (p v) ∧
      (Opt.take_value p (Opt.take_value p res).2).1 = Sum.inr true) := by
  obtain ⟨passed, values⟩ := res
  refine ⟨?_, ?_, ?_⟩
  · rw [Opt.take_values]
    split <;> rfl
  · cases values with
    | nil => simp [Opt.take_value]; split <;> rfl
    | cons v rest => simp [Opt.take_value]
  · intro hp v hv
    simp only at hv
    subst hv
    constructor
    · rfl
    · simp [Opt.take_value, hp]

-- === Claim C10 ===

/-- C10: registration is not atomic on failure.  With a fresh long
name and a colliding short name, `add_option` errors but has already
inserted the new long name (mapped to the rejected option); with a
colliding long name, the map entry is replaced by the new option
before the error returns. -/
theorem C10_partial_registration :
    (∀ (ctx : LocalContext) (ln : Str) (sn : Char) (d : Option Str) (fl fresh : Nat) (o : Opt),
      ctx.loptions ln = none → ctx.soptions sn = some o →
      (ctx.add_option (some ln) (some sn) d fl fresh).1 = Except.error errDupShortName ∧
      (ctx.add_option (some ln) (some sn) d fl fresh).2.loptions ln =
        some { long_name := some ln, short_name := some sn, description := d,
               flags := fl, resId := fresh }) ∧
    (∀ (ctx : LocalContext) (ln : Str) (sn : Option Char) (d : Option Str) (fl fresh : Nat) (o : Opt),
      ctx.loptions ln = some o →
      (ctx.add_option (some ln) sn d fl fresh).1 = Except.error errDupLongName ∧
      (ctx.add_option (some ln) sn d fl fresh).2.loptions ln =
        some { long_name := some ln, short_name := sn, description := d,
               flags := fl, resId := fresh }) := by
  constructor
  · intro ctx ln sn d fl fresh o hl hs
    simp [LocalContext.add_option, hl, hs]
  · intro ctx ln sn d fl fresh o hl
    simp [LocalContext.add_option, hl]
-- === Claim C3 (amended) ===

theorem splitnEq_no_sep (name : Str) (h : '=' ∉ name) :
    splitnEq name = (name, none) := by
  induction name with
  | nil => rfl
  | cons c cs ih =>
    have hc : ¬(c = '=') := fun e => h (by rw [e]; exact List.mem_cons_self '=' cs)
    have h2 : '=' ∉ cs := fun m => h (List.mem_cons_of_mem c m)
    simp [splitnEq, hc, ih h2]

theorem splitnEq_sep (name v : Str) (h : '=' ∉ name) :
    splitnEq (name ++ '=' :: v) = (name, some v) := by
  induction name with
  | nil => simp [splitnEq]
  | cons c cs ih =>
    have hc : ¬(c = '=') := fun e => h (by rw [e]; exact List.mem_cons_self '=' cs)
    have h2 : '=' ∉ cs := fun m => h (List.mem_cons_of_mem c m)
    simp [splitnEq, hc, ih h2]

theorem prepArg_long_sep (name : Str) (h : '=' ∉ name) :
    prepArg ('-' :: '-' :: name) = [RawArg.Long name] := by
  simp [prepArg, splitnEq_no_sep name h]

theorem prepArg_long_inline (name v : Str) (h : '=' ∉ name) :
    prepArg ('-' :: '-' :: (name ++ '=' :: v)) =
      [RawArg.Long name, RawArg.Neither v] := by
  simp [prepArg, splitnEq_sep name v h]

theorem prepArg_bare (v : Str) (h : v.head? ≠ some '-') :
    prepArg v = [RawArg.Neither v] := by
  match v with
  | [] => rfl
  | c :: cs =>
    have hc : ¬(c = '-') := by
      intro e
      exact h (by simp [e])
    simp [prepArg, hc]

/-- C3 (amended): for a value that does not begin with `-` (and an
option name containing no `=`), the inline spelling `--name=v` and
the separate spelling `--name` `v` tokenize to the same two tokens
`Long name, Neither v`, so validate produces identical results
(captured value lists included) on both spellings. -/
theorem C3_value_spelling_equiv (prog name v : Str) (hn : '=' ∉ name)
    (hv : v.head? ≠ some '-') :
    prep_args [prog, '-' :: '-' :: (name ++ '=' :: v)] =
      [RawArg.Long name, RawArg.Neither v] ∧
    prep_args [prog, '-' :: '-' :: name, v] =
      [RawArg.Long name, RawArg.Neither v] ∧
    ∀ (ctx : LocalContext) (cmds : Str → Option Cmd) (store : Nat → Res)
      (cflags : Nat → Bool),
      runValidate ctx cmds [prog, '-' :: '-' :: (name ++ '=' :: v)] store cflags =
        runValidate ctx cmds [prog, '-' :: '-' :: name, v] store cflags := by
  have h1 : prep_args [prog, '-' :: '-' :: (name ++ '=' :: v)] =
      [RawArg.Long name, RawArg.Neither v] := by
    simp [prep_args, prepArg_long_inline name v hn]
  have h2 : prep_args [prog, '-' :: '-' :: name, v] =
      [RawArg.Long name, RawArg.Neither v] := by
    simp [prep_args, prepArg_long_sep name hn, prepArg_bare v hv]
  refine ⟨h1, h2, fun ctx cmds store cflags => ?_⟩
  simp only [runValidate]
  rw [h1, h2]
-- === Claim C2 ===

/-- Once the residual list is nonempty, the parse loop fails with an
unexpected-argument error as soon as any later token matches an
option or command of the scope (intervening tokens cannot clear the
residual list without erroring). -/
theorem parseF_residual_then_match_errors (ctx : LocalContext)
    (cmds : Str → Option Cmd) :
    ∀ (rargs : List RawArg), (∃ t ∈ rargs, matchedTok ctx cmds t = true) →
    ∀ (fuel : Nat) (store : Nat → Res) (cflags : Nat → Bool) (residual : List Str),
      rargs.length ≤ fuel → residual ≠ [] →
      ∃ w, (parseF fuel ctx cmds rargs store cflags residual).1 =
        Except.error (errUnexpectedArgument w) := by
  intro rargs
  induction rargs with
  | nil =>
    rintro ⟨t, ht, _⟩
    cases ht
  | cons t rest ih =>
    rintro ⟨m, hm, hmatched⟩ fuel store cflags residual hfuel hres
    obtain ⟨v, vrest, rfl⟩ : ∃ v vrest, residual = v :: vrest := by
      cases residual with
      | nil => exact absurd rfl hres
      | cons v vrest => exact ⟨v, vrest, rfl⟩
    match fuel, hfuel with
    | fuel + 1, hfuel =>
    cases t with
    | Short c =>
      cases hs : ctx.soptions c with
      | none => exact ⟨v, by simp [parseF, hs]⟩
      | some opt =>
        refine ⟨vrest.headD v, ?_⟩
        cases vrest with
        | nil => simp [parseF, hs, Opt.validate]
        | cons w ws => simp [parseF, hs, Opt.validate]
    | Long l =>
      cases hs : ctx.loptions l with
      | none => exact ⟨v, by simp [parseF, hs]⟩
      | some opt =>
        refine ⟨vrest.headD v, ?_⟩
        cases vrest with
        | nil => simp [parseF, hs, Opt.validate]
        | cons w ws => simp [parseF, hs, Opt.validate]
    | Neither n =>
      cases hc : cmds n with
      | some cmd =>
        refine ⟨vrest.headD v, ?_⟩
        cases vrest with
        | nil => simp [parseF, hc]
        | cons w ws => simp [parseF, hc]
      | none =>
        have hm2 : m ∈ rest := by
          cases hm with
          | head => simp [matchedTok, hc] at hmatched
          | tail _ h => exact h
        have hfuel2 : rest.length ≤ fuel := by
          simpa [Nat.succ_le_succ_iff] using hfuel
        have := ih ⟨m, hm2, hmatched⟩ fuel store cflags ((v :: vrest) ++ [n])
          hfuel2 (by simp)
        simpa [parseF, hc] using this

/-- C2: anonymous (bare) values are legal only as a trailing group.
(1) From the start of validation, an unmatched bare value followed
anywhere later by a token matching an option or command of the scope
makes validate fail with an unexpected-argument error naming a
leftover; (2) when the matched token immediately follows a single
unmatched bare value, the error names that value; (3) whereas for
`["--long1","arg1","arg2"]` with `--long1` registered no-value,
validate succeeds, the leftover list is exactly
`["arg1","arg2"]` in input order, and `check` of the matched option
is true. -/
theorem C2_trailing_anonymous_arguments :
    (∀ (ctx : LocalContext) (cmds : Str → Option Cmd) (v : Str) (rest : List RawArg)
      (store : Nat → Res) (cflags : Nat → Bool),
      cmds v = none → (∃ t ∈ rest, matchedTok ctx cmds t = true) →
      ∃ w, (parseF (RawArg.Neither v :: rest).length ctx cmds
        (RawArg.Neither v :: rest) store cflags []).1 =
          Except.error (errUnexpectedArgument w)) ∧
    (∀ (ctx : LocalContext) (cmds : Str → Option Cmd) (v : Str) (tok : RawArg)
      (rest : List RawArg) (store : Nat → Res) (cflags : Nat → Bool),
      cmds v = none → matchedTok ctx cmds tok = true →
      (parseF (RawArg.Neither v :: tok :: rest).length ctx cmds
        (RawArg.Neither v :: tok :: rest) store cflags []).1 =
          Except.error (errUnexpectedArgument v)) ∧
    ((runValidate ctxLong1 emptyCmds
        ["t".toList, "--long1".toList, "arg1".toList, "arg2".toList]
        initStore initFlags).1 = Except.ok () ∧
     (runValidate ctxLong1 emptyCmds
        ["t".toList, "--long1".toList, "arg1".toList, "arg2".toList]
        initStore initFlags).2.2.2 = ["arg1".toList, "arg2".toList] ∧
     Opt.check ((runValidate ctxLong1 emptyCmds
        ["t".toList, "--long1".toList, "arg1".toList, "arg2".toList]
        initStore initFlags).2.1 0) = true) := by
  refine ⟨?_, ?_, by rfl, by decide, by decide⟩
  · intro ctx cmds v rest store cflags hv hmatch
    have h1 : parseF (RawArg.Neither v :: rest).length ctx cmds
        (RawArg.Neither v :: rest) store cflags [] =
        parseF rest.length ctx cmds rest store cflags [v] := by
      simp [parseF, hv]
    rw [h1]
    exact parseF_residual_then_match_errors ctx cmds rest hmatch
      rest.length store cflags [v] (Nat.le_refl _) (by simp)
  · intro ctx cmds v tok rest store cflags hv htok
    have h1 : parseF (RawArg.Neither v :: tok :: rest).length ctx cmds
        (RawArg.Neither v :: tok :: rest) store cflags [] =
        parseF (tok :: rest).length ctx cmds (tok :: rest) store cflags [v] := by
      simp [parseF, hv]
    rw [h1]
    cases tok with
    | Short c =>
      cases hs : ctx.soptions c with
      | none => rw [matchedTok, hs] at htok; exact absurd htok (by simp)
      | some opt => simp [parseF, hs, Opt.validate]
    | Long l =>
      cases hs : ctx.loptions l with
      | none => rw [matchedTok, hs] at htok; exact absurd htok (by simp)
      | some opt => simp [parseF, hs, Opt.validate]
    | Neither n =>
      cases hc : cmds n with
      | none => rw [matchedTok, hc] at htok; exact absurd htok (by simp)
      | some cmd => simp [parseF, hc]
-- === Claim C5 ===

/-- A run of clean tokens (matched, no-value, non-unique options with
result cells other than `uid`) is consumed by the parse loop without
error, without touching the residual list, and without touching the
cell `uid`. -/
theorem parseF_clean_prefix (ctx : LocalContext) (cmds : Str → Option Cmd) (uid : Nat) :
    ∀ (toks : List RawArg), (∀ t ∈ toks, CleanTok ctx uid t) →
    ∀ (fuel : Nat) (rest : List RawArg) (store : Nat → Res) (cflags : Nat → Bool),
      toks.length + rest.length ≤ fuel →
      ∃ store2, parseF fuel ctx cmds (toks ++ rest) store cflags [] =
          parseF (fuel - toks.length) ctx cmds rest store2 cflags [] ∧
        store2 uid = store uid := by
  intro toks
  induction toks with
  | nil =>
    intro _ fuel rest store cflags _
    exact ⟨store, by simp, rfl⟩
  | cons t ts ih =>
    intro hclean fuel rest store cflags hfuel
    obtain ⟨f, rfl⟩ : ∃ f, fuel = f + 1 := ⟨fuel - 1, by simp at hfuel; omega⟩
    obtain ⟨o, name, hmatch, hnoval, hnouniq, hne⟩ := hclean t (List.mem_cons_self t ts)
    have hts : ∀ x ∈ ts, CleanTok ctx uid x :=
      fun x hx => hclean x (List.mem_cons_of_mem t hx)
    have hfuel2 : ts.length + rest.length ≤ f := by simp at hfuel; omega
    have hsub : f + 1 - (t :: ts).length = f - ts.length := by simp
    cases t with
    | Neither n => exact absurd hmatch (by simp [optTokMatch])
    | Short c =>
      cases hx : ctx.soptions c with
      | none => rw [optTokMatch, hx] at hmatch; exact absurd hmatch (by simp)
      | some o2 =>
        rw [optTokMatch, hx] at hmatch
        obtain ⟨rfl, rfl⟩ : o2 = o ∧ [c] = name := by
          simpa using hmatch
        have hstep : parseF (f + 1) ctx cmds ((RawArg.Short c :: ts) ++ rest) store cflags [] =
            parseF f ctx cmds (ts ++ rest)
              (updStore store o2.resId
                { store o2.resId with passed := (store o2.resId).passed + 1 }) cflags [] := by
          simp [parseF, hx, Opt.validate, hnouniq, hnoval]
        obtain ⟨store2, heq, hsuid⟩ := ih hts f rest
          (updStore store o2.resId
            { store o2.resId with passed := (store o2.resId).passed + 1 }) cflags hfuel2
        refine ⟨store2, ?_, ?_⟩
        · rw [hstep, heq, hsub]
        · rw [hsuid]
          simp [updStore, Ne.symm hne]
    | Long l =>
      cases hx : ctx.loptions l with
      | none => rw [optTokMatch, hx] at hmatch; exact absurd hmatch (by simp)
      | some o2 =>
        rw [optTokMatch, hx] at hmatch
        obtain ⟨rfl, rfl⟩ : o2 = o ∧ l = name := by
          simpa using hmatch
        have hstep : parseF (f + 1) ctx cmds ((RawArg.Long l :: ts) ++ rest) store cflags [] =
            parseF f ctx cmds (ts ++ rest)
              (updStore store o2.resId
                { store o2.resId with passed := (store o2.resId).passed + 1 }) cflags [] := by
          simp [parseF, hx, Opt.validate, hnouniq, hnoval]
        obtain ⟨store2, heq, hsuid⟩ := ih hts f rest
          (updStore store o2.resId
            { store o2.resId with passed := (store o2.resId).passed + 1 }) cflags hfuel2
        refine ⟨store2, ?_, ?_⟩
        · rw [hstep, heq, hsub]
        · rw [hsuid]
          simp [updStore, Ne.symm hne]

/-- A token resolving to an option is a `Short` or `Long` token. -/
theorem optTokMatch_isOption (ctx : LocalContext) (t : RawArg) (o : Opt)
    (nm : Str) (h : optTokMatch ctx t = some (o, nm)) : t.option = true := by
  cases t with
  | Short c => rfl
  | Long l => rfl
  | Neither n => rw [optTokMatch] at h; cases h

/-- First occurrence of a registered option with a fresh result cell:
the parse loop consumes the option token (and its value token, when
one is supplied in `V`), sets the count to 1, appends the value, and
continues. -/
theorem parseF_opt_first_step (ctx : LocalContext) (cmds : Str → Option Cmd)
    (utok : RawArg) (u : Opt) (uname : Str) (V rest : List RawArg)
    (fuel : Nat) (store : Nat → Res) (cflags : Nat → Bool)
    (hu : optTokMatch ctx utok = some (u, uname))
    (hpassed : (store u.resId).passed = 0)
    (hV : (V = [] ∧ u.has_flag Flags.TakesArg = false) ∨
          (∃ w, V = [RawArg.Neither w] ∧
            u.has_flag (Flags.TakesArg ||| Flags.TakesOptionalArg) = true))
    (hhead : V = [] → u.has_flag (Flags.TakesArg ||| Flags.TakesOptionalArg) = true →
      ∃ narg nrest, rest = narg :: nrest ∧ narg.option = true) :
    parseF (fuel + 1) ctx cmds (utok :: (V ++ rest)) store cflags [] =
      parseF fuel ctx cmds rest
        (updStore store u.resId
          { passed := 1, values := (store u.resId).values ++ V.map RawArg.value })
        cflags [] := by
  cases utok with
  | Neither n => rw [optTokMatch] at hu; cases hu
  | Short c =>
    cases hx : ctx.soptions c with
    | none => rw [optTokMatch, hx] at hu; cases hu
    | some o2 =>
      rw [optTokMatch, hx] at hu
      obtain ⟨rfl, rfl⟩ : o2 = u ∧ [c] = uname := by simpa using hu
      rcases hV with ⟨rfl, hTA⟩ | ⟨w, rfl, h12⟩
      · cases h12 : o2.has_flag (Flags.TakesArg ||| Flags.TakesOptionalArg) with
        | false => simp [parseF, hx, Opt.validate, hpassed, h12]
        | true =>
          obtain ⟨narg, nrest, rfl, hopt⟩ := hhead rfl h12
          simp [parseF, hx, Opt.validate, hpassed, h12, hTA, hopt]
      · simp [parseF, hx, Opt.validate, hpassed, h12, RawArg.option, RawArg.value]
  | Long l =>
    cases hx : ctx.loptions l with
    | none => rw [optTokMatch, hx] at hu; cases hu
    | some o2 =>
      rw [optTokMatch, hx] at hu
      obtain ⟨rfl, rfl⟩ : o2 = u ∧ l = uname := by simpa using hu
      rcases hV with ⟨rfl, hTA⟩ | ⟨w, rfl, h12⟩
      · cases h12 : o2.has_flag (Flags.TakesArg ||| Flags.TakesOptionalArg) with
        | false => simp [parseF, hx, Opt.validate, hpassed, h12]
        | true =>
          obtain ⟨narg, nrest, rfl, hopt⟩ := hhead rfl h12
          simp [parseF, hx, Opt.validate, hpassed, h12, hTA, hopt]
      · simp [parseF, hx, Opt.validate, hpassed, h12, RawArg.option, RawArg.value]

/-- Second occurrence of a unique option: the parse loop fails with
the duplicate-option error and the count sticks at 2. -/
theorem parseF_unique_second_step (ctx : LocalContext) (cmds : Str → Option Cmd)
    (utok : RawArg) (u : Opt) (uname : Str) (C : List RawArg)
    (fuel : Nat) (store : Nat → Res) (cflags : Nat → Bool)
    (hu : optTokMatch ctx utok = some (u, uname))
    (huniq : u.has_flag Flags.Unique = true)
    (hpassed : (store u.resId).passed = 1) :
    (parseF (fuel + 1) ctx cmds (utok :: C) store cflags []).1 =
      Except.error (errDuplicateOption uname) ∧
    Opt.count ((parseF (fuel + 1) ctx cmds (utok :: C) store cflags []).2.1 u.resId) = 2 := by
  cases utok with
  | Neither n => rw [optTokMatch] at hu; cases hu
  | Short c =>
    cases hx : ctx.soptions c with
    | none => rw [optTokMatch, hx] at hu; cases hu
    | some o2 =>
      rw [optTokMatch, hx] at hu
      obtain ⟨rfl, rfl⟩ : o2 = u ∧ [c] = uname := by simpa using hu
      constructor
      · simp [parseF, hx, Opt.validate, hpassed, huniq]
      · simp [parseF, hx, Opt.validate, hpassed, huniq, updStore, Opt.count]
  | Long l =>
    cases hx : ctx.loptions l with
    | none => rw [optTokMatch, hx] at hu; cases hu
    | some o2 =>
      rw [optTokMatch, hx] at hu
      obtain ⟨rfl, rfl⟩ : o2 = u ∧ l = uname := by simpa using hu
      constructor
      · simp [parseF, hx, Opt.validate, hpassed, huniq]
      · simp [parseF, hx, Opt.validate, hpassed, huniq, updStore, Opt.count]

/-- C5: for an option registered with the Unique flag, an argument
list in which it occurs twice — possibly with a value after the first
occurrence and with other clean (matched, no-value, non-unique)
option tokens before and between the occurrences, and anything after
the second — makes validate fail with the duplicate-option error, and
the occurrence count afterwards is 2 (the count is not rolled back on
error). -/
theorem C5_unique_option_duplicate (ctx : LocalContext) (cmds : Str → Option Cmd)
    (A V B C : List RawArg) (utok : RawArg) (u : Opt) (uname : Str)
    (store : Nat → Res) (cflags : Nat → Bool)
    (hu : optTokMatch ctx utok = some (u, uname))
    (huniq : u.has_flag Flags.Unique = true)
    (hA : ∀ t ∈ A, CleanTok ctx u.resId t)
    (hB : ∀ t ∈ B, CleanTok ctx u.resId t)
    (hV : (V = [] ∧ u.has_flag Flags.TakesArg = false) ∨
          (∃ w, V = [RawArg.Neither w] ∧
            u.has_flag (Flags.TakesArg ||| Flags.TakesOptionalArg) = true))
    (hpassed : (store u.resId).passed = 0) :
    (parseF (A ++ utok :: (V ++ (B ++ utok :: C))).length ctx cmds
       (A ++ utok :: (V ++ (B ++ utok :: C))) store cflags []).1 =
      Except.error (errDuplicateOption uname) ∧
    Opt.count ((parseF (A ++ utok :: (V ++ (B ++ utok :: C))).length ctx cmds
       (A ++ utok :: (V ++ (B ++ utok :: C))) store cflags []).2.1 u.resId) = 2 := by
  obtain ⟨store1, h1, hs1⟩ := parseF_clean_prefix ctx cmds u.resId A hA
    (A ++ utok :: (V ++ (B ++ utok :: C))).length (utok :: (V ++ (B ++ utok :: C)))
    store cflags (by simp)
  have hLA : (A ++ utok :: (V ++ (B ++ utok :: C))).length - A.length =
      (V ++ (B ++ utok :: C)).length + 1 := by
    simp
  rw [h1, hLA]
  have hpassed1 : (store1 u.resId).passed = 0 := by rw [hs1, hpassed]
  have hhead : V = [] → u.has_flag (Flags.TakesArg ||| Flags.TakesOptionalArg) = true →
      ∃ narg nrest, B ++ utok :: C = narg :: nrest ∧ narg.option = true := by
    intro _ _
    cases hBc : B with
    | nil =>
      exact ⟨utok, C, by simp, optTokMatch_isOption ctx utok u uname hu⟩
    | cons b bs =>
      obtain ⟨o3, nm3, hm3, _, _, _⟩ := hB b (by rw [hBc]; exact List.mem_cons_self b bs)
      exact ⟨b, bs ++ utok :: C, by simp, optTokMatch_isOption ctx b o3 nm3 hm3⟩
  rw [parseF_opt_first_step ctx cmds utok u uname V (B ++ utok :: C)
    (V ++ (B ++ utok :: C)).length store1 cflags hu hpassed1 hV hhead]
  obtain ⟨store3, h3, hs3⟩ := parseF_clean_prefix ctx cmds u.resId B hB
    (V ++ (B ++ utok :: C)).length (utok :: C)
    (updStore store1 u.resId
      { passed := 1, values := (store1 u.resId).values ++ V.map RawArg.value })
    cflags (by simp)
  rw [h3]
  have hpassed3 : (store3 u.resId).passed = 1 := by
    rw [hs3]; simp [updStore]
  have hsub : (V ++ (B ++ utok :: C)).length - B.length = (V.length + C.length) + 1 := by
    simp; omega
  rw [hsub]
  exact parseF_unique_second_step ctx cmds utok u uname C (V.length + C.length)
    store3 cflags hu huniq hpassed3
-- === Claim C6 ===

/-- Reading an updated result store at the updated cell. -/
theorem updStore_self (store : Nat → Res) (i : Nat) (r : Res) :
    updStore store i r i = r := by
  simp [updStore]

/-- Tokenizing a sequence of option invocations: every block, inline
or split, yields the pair `Long name, Neither v`. -/
theorem invocationArgs_tokens (name : Str) (hn : '=' ∉ name) :
    ∀ (ps : List (Bool × Str)),
      (∀ p ∈ ps, p.1 = true ∨ p.2.head? ≠ some '-') →
      (invocationArgs name ps).flatMap prepArg =
        ps.flatMap fun p => [RawArg.Long name, RawArg.Neither p.2] := by
  intro ps
  induction ps with
  | nil => intro _; rfl
  | cons p ps ih =>
    intro hp
    have hps : ∀ q ∈ ps, q.1 = true ∨ q.2.head? ≠ some '-' :=
      fun q hq => hp q (List.mem_cons_of_mem p hq)
    obtain ⟨b, v⟩ := p
    cases b with
    | true =>
      simp [invocationArgs, prepArg_long_inline name v hn, ih hps]
    | false =>
      have hv : v.head? ≠ some '-' := by
        rcases hp (false, v) (List.mem_cons_self _ _) with hb | hv
        · cases hb
        · exact hv
      simp [invocationArgs, prepArg_long_sep name hn, prepArg_bare v hv, ih hps]

/-- The token list of `n` invocation blocks has length `2 * n`. -/
theorem invocation_tokens_length (name : Str) (ps : List (Bool × Str)) :
    (ps.flatMap fun p => [RawArg.Long name, RawArg.Neither p.2]).length =
      2 * ps.length := by
  induction ps with
  | nil => rfl
  | cons q qs ih => simp [ih]; omega

/-- Running the parse loop over `n` invocation blocks of a
mandatory-value option succeeds and appends the `n` values, in input
order, to the option's result cell. -/
theorem parseF_mandatory_blocks (ctx : LocalContext) (cmds : Str → Option Cmd)
    (name : Str) (u : Opt)
    (hl : ctx.loptions name = some u)
    (hTA : u.flags = Flags.TakesArg) :
    ∀ (ps : List (Bool × Str)) (fuel : Nat) (store : Nat → Res) (cflags : Nat → Bool),
      2 * ps.length ≤ fuel →
      ∃ store2,
        parseF fuel ctx cmds
          (ps.flatMap fun p => [RawArg.Long name, RawArg.Neither p.2]) store cflags [] =
          (Except.ok (), store2, cflags, []) ∧
        store2 u.resId =
          { passed := (store u.resId).passed + ps.length,
            values := (store u.resId).values ++ ps.map fun p => p.2 } := by
  have huniq : u.has_flag Flags.Unique = false := by
    simp only [Opt.has_flag, hTA]; decide
  have h12 : u.has_flag (Flags.TakesArg ||| Flags.TakesOptionalArg) = true := by
    simp only [Opt.has_flag, hTA]; decide
  intro ps
  induction ps with
  | nil =>
    intro fuel store cflags _
    refine ⟨store, ?_, by simp⟩
    cases fuel <;> simp [parseF]
  | cons p ps ih =>
    intro fuel store cflags hfuel
    obtain ⟨f, rfl⟩ : ∃ f, fuel = f + 1 := ⟨fuel - 1, by simp at hfuel; omega⟩
    have hfuel2 : 2 * ps.length ≤ f := by simp at hfuel; omega
    have hstep : parseF (f + 1) ctx cmds
        ((p :: ps).flatMap fun q => [RawArg.Long name, RawArg.Neither q.2]) store cflags [] =
        parseF f ctx cmds (ps.flatMap fun q => [RawArg.Long name, RawArg.Neither q.2])
          (updStore store u.resId
            { passed := (store u.resId).passed + 1,
              values := (store u.resId).values ++ [p.2] }) cflags [] := by
      simp [parseF, hl, Opt.validate, huniq, h12, RawArg.option, RawArg.value]
    obtain ⟨store2, heq, hrid⟩ := ih f
      (updStore store u.resId
        { passed := (store u.resId).passed + 1,
          values := (store u.resId).values ++ [p.2] }) cflags hfuel2
    refine ⟨store2, ?_, ?_⟩
    · rw [hstep, heq]
    · rw [hrid, updStore_self]
      simp only [Res.mk.injEq]
      exact ⟨by simp only [List.length_cons]; omega, by simp⟩

/-- C6: for an option registered with the mandatory-value flag and
invoked `N ≥ 1` times with distinct values, in any mix of inline
(`--name=v`) and split (`--name` `v`) spellings, validate succeeds and
`take_values` returns exactly those `N` values, each parsing
successfully, in input order (and the occurrence count is `N`, with
no leftover arguments). -/
theorem C6_mandatory_value_roundtrip (prog name : Str) (ctx : LocalContext)
    (u : Opt) (ps : List (Bool × Str))
    (hn : '=' ∉ name)
    (hp : ∀ p ∈ ps, p.1 = true ∨ p.2.head? ≠ some '-')
    (hne : ps ≠ [])
    (hnodup : (ps.map fun p => p.2).Nodup)
    (hl : ctx.loptions name = some u)
    (hTA : u.flags = Flags.TakesArg) :
    (runValidate ctx emptyCmds (prog :: invocationArgs name ps) initStore initFlags).1 =
      Except.ok () ∧
    ((runValidate ctx emptyCmds (prog :: invocationArgs name ps) initStore initFlags).2.1 u.resId).values =
      ps.map (fun p => p.2) ∧
    Opt.count ((runValidate ctx emptyCmds (prog :: invocationArgs name ps) initStore initFlags).2.1 u.resId) =
      ps.length ∧
    (Opt.take_values (fun s => some s)
      ((runValidate ctx emptyCmds (prog :: invocationArgs name ps) initStore initFlags).2.1 u.resId)).1 =
      Sum.inl ((ps.map fun p => p.2).map some) ∧
    (runValidate ctx emptyCmds (prog :: invocationArgs name ps) initStore initFlags).2.2.2 = [] := by
  have htok : prep_args (prog :: invocationArgs name ps) =
      ps.flatMap fun p => [RawArg.Long name, RawArg.Neither p.2] := by
    simp only [prep_args, List.drop_succ_cons, List.drop_zero]
    exact invocationArgs_tokens name hn ps hp
  obtain ⟨store2, heq, hrid⟩ := parseF_mandatory_blocks ctx emptyCmds name u hl hTA ps
    (ps.flatMap fun p => [RawArg.Long name, RawArg.Neither p.2]).length initStore initFlags
    (by rw [invocation_tokens_length])
  have hrun : runValidate ctx emptyCmds (prog :: invocationArgs name ps) initStore initFlags =
      (Except.ok (), store2, initFlags, []) := by
    simp only [runValidate]
    rw [htok, heq]
  rw [hrun]
  have hrid2 : store2 u.resId = { passed := ps.length, values := ps.map fun p => p.2 } := by
    rw [hrid]
    simp [initStore]
  have hlen : (ps.map fun p => p.2).length ≠ 0 := by
    simp only [List.length_map]
    intro h
    exact hne (List.length_eq_zero.mp h)
  refine ⟨rfl, ?_, ?_, ?_, rfl⟩ <;>
    simp [Opt.count, Opt.take_values, hrid2, hlen, hne, Function.comp]
-- === Witnesses ===

/-- Witness for C1: concrete instantiation of both parts of the
amended command-selection theorem. -/
theorem C1_command_selection_witness :
    ((parseF 2 (LocalContext.new [])
        (fun n => if n = "cmd".toList then some ⟨0, LocalContext.new []⟩ else none)
        [RawArg.Neither "cmd".toList, RawArg.Neither "cmd".toList]
        initStore initFlags []).1 = Except.ok () ∧
      (parseF 2 (LocalContext.new [])
        (fun n => if n = "cmd".toList then some ⟨0, LocalContext.new []⟩ else none)
        [RawArg.Neither "cmd".toList, RawArg.Neither "cmd".toList]
        initStore initFlags []).2.2.1 0 = true ∧
      (parseF 2 (LocalContext.new [])
        (fun n => if n = "cmd".toList then some ⟨0, LocalContext.new []⟩ else none)
        [RawArg.Neither "cmd".toList, RawArg.Neither "cmd".toList]
        initStore initFlags []).2.2.2 = ["cmd".toList]) ∧
    parseF (0 + 1) (LocalContext.new []) cmdsCmd [RawArg.Neither "cmd".toList]
        initStore (fun _ => true) [] =
      (Except.error (errUnexpectedCommand "cmd".toList), initStore, fun _ => true, []) :=
  ⟨C1_command_selection.1 (LocalContext.new []) "cmd".toList 0 initStore initFlags rfl,
   C1_command_selection.2 0 (LocalContext.new []) cmdsCmd "cmd".toList
     ⟨0, LocalContext.new []⟩ [] initStore (fun _ => true) rfl rfl⟩

/-- Witness for C2: a leftover value `x` followed by the matched
option `--long1` is named in the unexpected-argument error. -/
theorem C2_trailing_anonymous_arguments_witness :
    (∃ w, (parseF 2 ctxLong1 emptyCmds
        [RawArg.Neither "x".toList, RawArg.Long "long1".toList]
        initStore initFlags []).1 = Except.error (errUnexpectedArgument w)) ∧
    (parseF 2 ctxLong1 emptyCmds
        [RawArg.Neither "x".toList, RawArg.Long "long1".toList]
        initStore initFlags []).1 =
      Except.error (errUnexpectedArgument "x".toList) :=
  ⟨C2_trailing_anonymous_arguments.1 ctxLong1 emptyCmds "x".toList
      [RawArg.Long "long1".toList] initStore initFlags rfl
      ⟨RawArg.Long "long1".toList, by simp, by decide⟩,
   C2_trailing_anonymous_arguments.2.1 ctxLong1 emptyCmds "x".toList
      (RawArg.Long "long1".toList) [] initStore initFlags rfl (by decide)⟩

/-- Witness for C3: with option name `opt` and value `value`, both
spellings tokenize identically and validate identically. -/
theorem C3_value_spelling_equiv_witness :
    prep_args ["t".toList, '-' :: '-' :: ("opt".toList ++ '=' :: "value".toList)] =
      [RawArg.Long "opt".toList, RawArg.Neither "value".toList] ∧
    prep_args ["t".toList, '-' :: '-' :: "opt".toList, "value".toList] =
      [RawArg.Long "opt".toList, RawArg.Neither "value".toList] ∧
    ∀ (ctx : LocalContext) (cmds : Str → Option Cmd) (store : Nat → Res)
      (cflags : Nat → Bool),
      runValidate ctx cmds ["t".toList, '-' :: '-' :: ("opt".toList ++ '=' :: "value".toList)] store cflags =
        runValidate ctx cmds ["t".toList, '-' :: '-' :: "opt".toList, "value".toList] store cflags :=
  C3_value_spelling_equiv "t".toList "opt".toList "value".toList (by decide) (by decide)

/-- Witness for C5: the unique short option `d` passed twice fails
with the duplicate-option error and its count sticks at 2. -/
theorem C5_unique_option_duplicate_witness :
    (parseF 2 ctxUniqueD emptyCmds [RawArg.Short 'd', RawArg.Short 'd']
        initStore initFlags []).1 =
      Except.error (errDuplicateOption ['d']) ∧
    Opt.count ((parseF 2 ctxUniqueD emptyCmds [RawArg.Short 'd', RawArg.Short 'd']
        initStore initFlags []).2.1 0) = 2 :=
  C5_unique_option_duplicate ctxUniqueD emptyCmds [] [] [] [] (RawArg.Short 'd')
    { long_name := none, short_name := some 'd', description := none,
      flags := Flags.Unique, resId := 0 } ['d'] initStore initFlags
    (by decide) (by decide) (by simp) (by simp)
    (Or.inl ⟨rfl, by decide⟩) rfl

/-- Witness for C6: the mandatory-value option `opt` invoked twice,
once inline and once split, with distinct values `31` and `30`. -/
theorem C6_mandatory_value_roundtrip_witness :
    (runValidate ctxOptArg emptyCmds
        ("t".toList :: invocationArgs "opt".toList
          [(true, "31".toList), (false, "30".toList)])
        initStore initFlags).1 = Except.ok () ∧
    ((runValidate ctxOptArg emptyCmds
        ("t".toList :: invocationArgs "opt".toList
          [(true, "31".toList), (false, "30".toList)])
        initStore initFlags).2.1 0).values = ["31".toList, "30".toList] ∧
    Opt.count ((runValidate ctxOptArg emptyCmds
        ("t".toList :: invocationArgs "opt".toList
          [(true, "31".toList), (false, "30".toList)])
        initStore initFlags).2.1 0) = 2 ∧
    (Opt.take_values (fun s => some s)
      ((runValidate ctxOptArg emptyCmds
        ("t".toList :: invocationArgs "opt".toList
          [(true, "31".toList), (false, "30".toList)])
        initStore initFlags).2.1 0)).1 =
      Sum.inl [some "31".toList, some "30".toList] ∧
    (runValidate ctxOptArg emptyCmds
        ("t".toList :: invocationArgs "opt".toList
          [(true, "31".toList), (false, "30".toList)])
        initStore initFlags).2.2.2 = [] :=
  C6_mandatory_value_roundtrip "t".toList "opt".toList ctxOptArg
    { long_name := some "opt".toList, short_name := none, description := none,
      flags := Flags.TakesArg, resId := 0 }
    [(true, "31".toList), (false, "30".toList)]
    (by decide) (by decide) (by decide) (by decide) (by rfl) (by rfl)

/-- Witness for C8: the no-name error is returned exactly when both
names are absent, at the empty registry. -/
theorem C8_invalid_definition_iff_witness :
    (((LocalContext.new []).add_option none none none Flags.Defaults 0).1 =
      Except.error errNoName) ↔ ((none : Option Str) = none ∧ (none : Option Char) = none) :=
  C8_invalid_definition_iff (LocalContext.new []) none none none Flags.Defaults 0

/-- Witness for C9: concrete accessor effects on a cell holding one
captured value `"33"`. -/
theorem C9_accessor_effects_witness :
    (Opt.take_values (fun s => some s) resOnce33).2 = resOnce33 ∧
    (Opt.take_value (fun s => some s) resOnce33).2 =
      { resOnce33 with values := resOnce33.values.tail } ∧
    ((Opt.take_value (fun s => some s) resOnce33).1 = Sum.inl (some "33".toList) ∧
      (Opt.take_value (fun s => some s)
        (Opt.take_value (fun s => some s) resOnce33).2).1 = Sum.inr true) :=
  ⟨(C9_accessor_effects (fun s => some s) resOnce33).1,
   (C9_accessor_effects (fun s => some s) resOnce33).2.1,
   (C9_accessor_effects (fun s => some s) resOnce33).2.2 (by decide) "33".toList rfl⟩

/-- Witness for C10: concrete short-name and long-name collisions
against the registry holding the option `one`/`x`. -/
theorem C10_partial_registration_witness :
    ((ctxOneX.add_option (some "two".toList) (some 'x') none Flags.Defaults 1).1 =
      Except.error errDupShortName ∧
    (ctxOneX.add_option (some "two".toList) (some 'x') none Flags.Defaults 1).2.loptions "two".toList =
      some { long_name := some "two".toList, short_name := some 'x', description := none,
             flags := Flags.Defaults, resId := 1 }) ∧
    ((ctxOneX.add_option (some "one".toList) none none Flags.Defaults 1).1 =
      Except.error errDupLongName ∧
    (ctxOneX.add_option (some "one".toList) none none Flags.Defaults 1).2.loptions "one".toList =
      some { long_name := some "one".toList, short_name := none, description := none,
             flags := Flags.Defaults, resId := 1 }) :=
  ⟨C10_partial_registration.1 ctxOneX "two".toList 'x' none Flags.Defaults 1
      { long_name := some "one".toList, short_name := some 'x', description := none,
        flags := Flags.Defaults, resId := 0 } (by decide) (by decide),
   C10_partial_registration.2 ctxOneX "one".toList none none Flags.Defaults 1
      { long_name := some "one".toList, short_name := some 'x', description := none,
        flags := Flags.Defaults, resId := 0 } (by decide)⟩
